import Mathlib

/-!
logflux: filter chain, point translation and batching sender.

A shallow embedding of `main.go` and `influx.go`.

Conventions of the embedding:

* A Go `string` is a Lean `String`; indexing and slicing are done on the list of
  characters, which is what Go does on the bytes of an ASCII string.
* A Go `map[string]string` that is only read and assigned is a function
  `String → Option String`; a map that is ranged over (`Valid`, the captures
  returned by the pattern engine) is the list of its entries.
* A run-time panic is the value `none` of an `Option` result.
* External collaborators (the pattern engine, `time.Parse`, `time.Now`, the
  destination `send`) are parameters.
-/

namespace Logflux

/-! ## Maps -/

/-- A Go `map[string]string`, seen through lookup and assignment. -/
abbrev StrMap := String → Option String

/-- The map with no entry. -/
def StrMap.empty : StrMap := fun _ => none

/-- Go `m[k]`: the zero value `""` when the key is absent. -/
def StrMap.get (m : StrMap) (k : String) : String := (m k).getD ""

/-- Go `m[k] = v`. -/
def StrMap.set (m : StrMap) (k v : String) : StrMap :=
  fun x => if x = k then some v else m x

/-- Build a map from a list of entries, later entries overriding earlier ones. -/
def StrMap.ofList (kvs : List (String × String)) : StrMap :=
  kvs.foldl (fun m kv => m.set kv.1 kv.2) StrMap.empty

/-! ## Errors and configuration types -/

/-- Go `error` values that travel through the pipeline.  `ErrNoMatch` is the
package-level sentinel of `main.go`; the other constructors wrap the error
values handed back by the collaborators. -/
inductive GoError where
  | ErrNoMatch
  | grok (msg : String)
  | timeParse (msg : String)
  | send (msg : String)
  deriving DecidableEq

/-- The filter rule `Meta` of `main.go`.  `Valid = none` is the nil map. -/
structure Meta where
  Pattern : String
  Key : String
  Good : String
  Tags : String
  Valid : Option (List (String × String))
  deriving DecidableEq

/-- The template `Translate` of `main.go`. -/
structure Translate where
  Pattern : String
  Key : String
  TSLayout : String
  TSField : String
  TFields : String
  VFields : String
  deriving DecidableEq

/-- The pattern engine `g.Parse(pattern, text)`: named captures or an error
message. -/
abbrev Grok := String → String → Except String (List (String × String))

/-! ## `unquoted` -/

/-- Go `unquoted`: when `s` is non-empty and `s[0]` is a double quote the result is
the slice `s[1 : len(s)-1]`, which panics (`none`) when `len(s) = 1` because the
low bound exceeds the high bound; otherwise `s` itself. -/
def unquoted (s : String) : Option String :=
  match s.data with
  | [] => some s
  | c :: rest =>
    if c = '"' then
      (if rest = [] then none else some (String.mk rest.dropLast))
    else some s

/-! ## `refine` and the rule loop of `Parse` -/

/-- The loop `for k, v := range valid` of `refine`: true when no entry makes
`refine` return `ErrNoMatch`.  A nil map has no entry. -/
def validOk (data : StrMap) : Option (List (String × String)) → Bool
  | none => true
  | some kvs => kvs.all (fun kv => data.get kv.1 == kv.2)

/-- The loop `for k, v := range matched { data[k] = unquoted(v) }`. -/
def mergeCaptures (data : StrMap) : List (String × String) → Option StrMap
  | [] => some data
  | kv :: rest =>
    match unquoted kv.2 with
    | none => none
    | some u => mergeCaptures (data.set kv.1 u) rest

/-- The block `if len(ptrn) > 0 ...` of `refine` (lines 126-135): the engine
call and the merge of its captures into the record.  `none` is a panic,
`some (.error e)` the early `return err`. -/
def extract (g : Grok) (data : StrMap) (ptrn key : String) :
    Option (Except GoError StrMap) :=
  if 0 < ptrn.length then
    match g ptrn (data.get key) with
    | .error msg => some (.error (GoError.grok msg))
    | .ok matched =>
      match mergeCaptures data matched with
      | none => none
      | some data' => some (.ok data')
  else some (.ok data)

/-- What one call of `refine` leaves behind: the record, the working template,
the returned error, and (ghost) the engine calls it made. -/
structure RefineResult where
  data : StrMap
  trans : Translate
  err : Option GoError
  grokCalls : List (String × String)

/-- Go `refine`. -/
def refine (g : Grok) (data : StrMap) (trans : Translate)
    (valid : Option (List (String × String))) (ptrn key good tags : String) :
    Option RefineResult :=
  if validOk data valid = false then
    some ⟨data, trans, some GoError.ErrNoMatch, []⟩
  else
    let calls := if 0 < ptrn.length then [(ptrn, data.get key)] else []
    match extract g data ptrn key with
    | none => none
    | some (.error e) => some ⟨data, trans, some e, calls⟩
    | some (.ok data') =>
      some ⟨data',
        { trans with VFields := trans.VFields ++ " " ++ good,
                     TFields := trans.TFields ++ " " ++ tags },
        none, calls⟩

/-- State of the rule loop of `process`: record, working template `t`, the
variable `err`, and (ghost) the engine calls made and the number of rules on
which `refine` was called. -/
structure ChainResult where
  data : StrMap
  trans : Translate
  err : Option GoError
  grokCalls : List (String × String)
  evaluated : Nat

/-- The loop `for _, meta := range filters` of `process`, started in state
`st`: `err = refine(...)`, leaving the loop as soon as `err == nil`. -/
def evalRules (g : Grok) : List Meta → ChainResult → Option ChainResult
  | [], st => some st
  | r :: rest, st =>
    match refine g st.data st.trans r.Valid r.Pattern r.Key r.Good r.Tags with
    | none => none
    | some res =>
      let st' : ChainResult :=
        ⟨res.data, res.trans, res.err, st.grokCalls ++ res.grokCalls, st.evaluated + 1⟩
      match res.err with
      | none => some st'
      | some _ => evalRules g rest st'

/-- The state in which `process` enters the rule loop: `var err error; t := trans`. -/
def chainInit (m : StrMap) (trans : Translate) : ChainResult :=
  ⟨m, trans, none, [], 0⟩

/-! ## `strings.Fields` -/

/-- Go `unicode.IsSpace`. -/
def isSpace (c : Char) : Bool :=
  let n := c.toNat
  (9 ≤ n && n ≤ 13) || n == 32 || n == 133 || n == 160 || n == 5760 ||
  (8192 ≤ n && n ≤ 8202) || n == 8232 || n == 8233 || n == 8239 || n == 8287 ||
  n == 12288

/-- Scanner behind `Fields`: `cur` is the field being read, in reverse. -/
def splitFields : List Char → List Char → List String
  | [], cur => if cur = [] then [] else [String.mk cur.reverse]
  | c :: cs, cur =>
    if isSpace c then
      (if cur = [] then splitFields cs [] else String.mk cur.reverse :: splitFields cs [])
    else splitFields cs (c :: cur)

/-- Go `strings.Fields`: the maximal runs of non-space characters, in order. -/
def Fields (s : String) : List String := splitFields s.data []

/-! ## `strconv.ParseFloat`, `strconv.ParseInt` and `numerical` -/

/-- A `float64` result of `ParseFloat`, kept as the decimal that was read:
`dec neg m e` is the `float64` nearest to `± m · 10^e`. -/
inductive F64 where
  | dec (neg : Bool) (mant : Nat) (exp10 : Int)
  | inf (neg : Bool)
  | nan
  deriving DecidableEq

/-- The dynamic value `interface{}` returned by `numerical`. -/
inductive Value where
  | float (f : F64)
  | int (i : Int)
  | str (s : String)
  deriving DecidableEq

/-- Value of a run of decimal digits. -/
def natOfDigits (ds : List Char) : Nat :=
  ds.foldl (fun n c => 10 * n + (c.toNat - 48)) 0

/-- Value of the digits of an exponent, as `readFloat` accumulates it: a digit
is taken in only while the value is below 10000. -/
def expOfDigits (ds : List Char) : Nat :=
  ds.foldl (fun e c => if e < 10000 then 10 * e + (c.toNat - 48) else e) 0

/-- The least magnitude that rounds to infinity as a `float64`:
`2^1024 - 2^970`, half a unit in the last place above the largest finite value. -/
def f64Limit : Nat :=
  0xFFFFFFFFFFFFFC00000000000000000000000000000000000000000000000000000000000000000000000000000000000000000000000000000000000000000000000000000000000000000000000000000000000000000000000000000000000000000000000000000000000000000000000000000000000000000000000000

/-- True when the decimal `m · 10^e` rounds to infinity as a `float64`;
`ParseFloat` then reports `ErrRange`. -/
def f64Overflows (m : Nat) (e : Int) : Bool :=
  if 0 ≤ e then decide (f64Limit ≤ m * 10 ^ e.toNat)
  else decide (f64Limit * 10 ^ (-e).toNat ≤ m)

/-- The names of infinity and not-a-number accepted by `ParseFloat`. -/
def special (s : String) : Option F64 :=
  let l := String.mk (s.data.map Char.toLower)
  if l = "inf" ∨ l = "infinity" ∨ l = "+inf" ∨ l = "+infinity" then some (F64.inf false)
  else if l = "-inf" ∨ l = "-infinity" then some (F64.inf true)
  else if l = "nan" then some F64.nan
  else none

/-- The optional exponent part of a decimal literal, which must reach the end
of the input: `e` or `E`, an optional sign, at least one digit. -/
def parseExponent : List Char → Option Int
  | [] => some 0
  | c :: r =>
    if c = 'e' ∨ c = 'E' then
      let body : Bool × List Char :=
        match r with
        | '+' :: r' => (false, r')
        | '-' :: r' => (true, r')
        | _ => (false, r)
      if body.2 ≠ [] ∧ body.2.all Char.isDigit then
        some (if body.1 then -(expOfDigits body.2 : Int) else (expOfDigits body.2 : Int))
      else none
    else none

/-- Model of `strconv.ParseFloat(s, 64)` with `err == nil` as `some`: the
special names, and decimal literals (optional sign, digits with an optional
point, optional exponent), as in the Go releases that have no hexadecimal
floats and no digit separators.  A literal that overflows is an error. -/
def ParseFloat (s : String) : Option F64 :=
  match special s with
  | some f => some f
  | none =>
    let signed : Bool × List Char :=
      match s.data with
      | '+' :: r => (false, r)
      | '-' :: r => (true, r)
      | cs => (false, cs)
    let ip := signed.2.span Char.isDigit
    let fp : List Char × List Char :=
      match ip.2 with
      | '.' :: r => r.span Char.isDigit
      | cs => ([], cs)
    if ip.1 = [] ∧ fp.1 = [] then none
    else
      match parseExponent fp.2 with
      | none => none
      | some e =>
        let m := natOfDigits (ip.1 ++ fp.1)
        let e10 : Int := e - fp.1.length
        if f64Overflows m e10 then none else some (F64.dec signed.1 m e10)

/-- Value of a digit character in bases up to 36. -/
def digitVal (c : Char) : Option Nat :=
  if '0' ≤ c ∧ c ≤ '9' then some (c.toNat - 48)
  else if 'a' ≤ c ∧ c ≤ 'z' then some (c.toNat - 87)
  else if 'A' ≤ c ∧ c ≤ 'Z' then some (c.toNat - 55)
  else none

/-- Read digits of the given base up to the end of the input. -/
def parseDigits (base : Nat) : List Char → Nat → Option Nat
  | [], acc => some acc
  | c :: cs, acc =>
    match digitVal c with
    | none => none
    | some d => if d < base then parseDigits base cs (acc * base + d) else none

/-- Model of `strconv.ParseInt(s, 0, 64)` with `err == nil` as `some`: optional
sign, base chosen by the leading `0x` (16) or `0` (8), else 10, and the value
must fit a signed 64-bit integer. -/
def ParseInt (s : String) : Option Int :=
  let signed : Bool × List Char :=
    match s.data with
    | '+' :: r => (false, r)
    | '-' :: r => (true, r)
    | cs => (false, cs)
  let un : Option Nat :=
    match signed.2 with
    | [] => none
    | '0' :: c :: r =>
      if c = 'x' ∨ c = 'X' then (if r = [] then none else parseDigits 16 r 0)
      else parseDigits 8 ('0' :: c :: r) 0
    | cs => (if cs.head? = some '0' then parseDigits 8 cs 0 else parseDigits 10 cs 0)
  match un with
  | none => none
  | some n =>
    if signed.1 then (if n ≤ 2 ^ 63 then some (-(n : Int)) else none)
    else (if n < 2 ^ 63 then some (n : Int) else none)

/-- Go `numerical`: float parse first, integer parse only when that fails,
else the string itself. -/
def numerical (s : String) : Value :=
  match ParseFloat s with
  | some f => Value.float f
  | none =>
    match ParseInt s with
    | some i => Value.int i
    | none => Value.str s

/-! ## `AddPoint` and `process` -/

/-- A `time.Time`, as nanoseconds since the epoch. -/
abbrev Instant := Int

/-- The arguments of one call of the `Sender`: name, tags, fields, timestamp.
The tags are the content of the tag map at the time of the call. -/
structure Point where
  name : String
  tags : StrMap
  fields : String → Option Value
  ts : Instant

/-- The function type `Sender` of `influx.go`; `none` is a nil error. -/
abbrev Sender := Point → Option GoError

/-- The call `time.Parse(layout, value)`: an instant or an error message. -/
abbrev TimeParse := String → String → Except String Instant

/-- What one call of `AddPoint` leaves behind: the returned error, the calls of
`send` it made (ghost), the caller's tag map, which `AddPoint` assigns into, and
the calls of `time.Parse` it made (ghost). -/
structure AddPointResult where
  err : Option GoError
  sent : List Point
  tags : StrMap
  parsed : List (String × String)

/-- The loop `for _, tag := range strings.Fields(t.TFields) { tags[tag] = m[tag] }`. -/
def assignTags (m tags : StrMap) (names : List String) : StrMap :=
  names.foldl (fun tg tag => tg.set tag (m.get tag)) tags

/-- The loop `for _, val := range strings.Fields(t.VFields) { f[val] = numerical(m[val]) }`
on a fresh map. -/
def assignFields (m : StrMap) (names : List String) : String → Option Value :=
  names.foldl (fun f val => fun x => if x = val then some (numerical (m.get val)) else f x)
    (fun _ => none)

/-- Go `AddPoint`, with `now` the reading of `time.Now()`. -/
def AddPoint (timeParse : TimeParse) (now : Instant) (send : Sender)
    (m tags : StrMap) (t : Translate) : AddPointResult :=
  let found := match m t.Key with
    | some v => v
    | none => t.Key
  let tags' := assignTags m tags (Fields t.TFields)
  let f := assignFields m (Fields t.VFields)
  if 0 < t.TSLayout.length ∧ 0 < t.TSField.length then
    match timeParse t.TSLayout (m.get t.TSField) with
    | .error msg =>
      ⟨some (GoError.timeParse msg), [], tags', [(t.TSLayout, m.get t.TSField)]⟩
    | .ok ts =>
      ⟨send ⟨found, tags', f, ts⟩, [⟨found, tags', f, ts⟩], tags',
        [(t.TSLayout, m.get t.TSField)]⟩
  else
    ⟨send ⟨found, tags', f, now⟩, [⟨found, tags', f, now⟩], tags', []⟩

/-- What one call of `process` leaves behind: the returned error, the calls of
`send` (ghost), the shared tag map, the record and the working template `t`. -/
structure ProcessResult where
  err : Option GoError
  sent : List Point
  tags : StrMap
  data : StrMap
  trans : Translate

/-- The closure `process` of `Parse` (the debug printing left out): the rule
loop over `filters` on a copy `t` of `trans`, `return err` when the loop ends
with an error, else `AddPoint(m, tags, t, s)`. -/
def process (g : Grok) (timeParse : TimeParse) (send : Sender) (filters : List Meta)
    (trans : Translate) (tags : StrMap) (m : StrMap) (now : Instant) :
    Option ProcessResult :=
  match evalRules g filters (chainInit m trans) with
  | none => none
  | some st =>
    match st.err with
    | some e => some ⟨some e, [], tags, st.data, st.trans⟩
    | none =>
      let r := AddPoint timeParse now send st.data tags st.trans
      some ⟨r.err, r.sent, r.tags, st.data, st.trans⟩

/-- What a run of `Parse` over a stream leaves behind. -/
structure ParseResult where
  err : Option GoError
  sent : List Point
  tags : StrMap

/-- The calls of `process` made by `g.ParseStream(reader, trans.Pattern, process)`
in `Parse`: one per record of the stream, in order, with the same `tags` map,
ending at the first error.  Each record comes with the clock reading of its
call. -/
def parseRecords (g : Grok) (timeParse : TimeParse) (send : Sender) (filters : List Meta)
    (trans : Translate) : StrMap → List (StrMap × Instant) → Option ParseResult
  | tags, [] => some ⟨none, [], tags⟩
  | tags, rec :: rest =>
    match process g timeParse send filters trans tags rec.1 rec.2 with
    | none => none
    | some r =>
      match r.err with
      | some e => some ⟨some e, r.sent, r.tags⟩
      | none =>
        match parseRecords g timeParse send filters trans r.tags rest with
        | none => none
        | some r' => some ⟨r'.err, r.sent ++ r'.sent, r'.tags⟩

/-! ## The background loop of `NewSender` -/

/-- Where the background goroutine stands: at the `select`, or in the inner
write loop. -/
inductive Mode where
  | accumulating
  | flushing
  deriving DecidableEq

/-- State of the sender: the buffer of the channel `pts`, the points of `bp`,
`count`, the position of the loop, and three ghost logs: the batches written
successfully, every `conn.Write` call with its outcome, and the points accepted
by the channel, in order. -/
structure SenderState (P : Type) where
  queue : List P
  batch : List P
  count : Int
  mode : Mode
  delivered : List (List P)
  attempts : List (List P × Bool)
  accepted : List P

/-- The parameters `batchSize` and `queueSize` of `NewSender`. -/
structure SenderConfig where
  batchSize : Int
  queueSize : Nat

/-- What can happen to the sender: a producer executes `pts <- pt`, the loop
takes the `case p := <-pts` branch, the loop takes the `case <-tick` branch,
`conn.Write(bp)` returns (`true` for a nil error). -/
inductive Event (P : Type) where
  | accept (p : P)
  | recv
  | tick
  | write (ok : Bool)

/-- The state when the goroutine starts: empty batch, `count := 0`. -/
def SenderState.init (P : Type) : SenderState P :=
  ⟨[], [], 0, Mode.accumulating, [], [], []⟩

/-- The body of `case p := <-pts`: `bp.AddPoint(p); count++`, then back to the
`select` when `count < batchSize`, else on to the write loop. -/
def addToBatch {P : Type} (cfg : SenderConfig) (s : SenderState P) (p : P) : SenderState P :=
  { s with
    batch := s.batch ++ [p]
    count := s.count + 1
    mode := if s.count + 1 < cfg.batchSize then Mode.accumulating else Mode.flushing }

/-- One event.  An event that cannot happen in the state (a send on a full
channel, a receive from an empty one, a `select` branch while the loop is
writing, a write outcome while it is not) leaves the state as it is.  With
`queueSize = 0` the channel has no buffer and a send completes by handing the
point to the loop waiting at the `select`. -/
def step {P : Type} (cfg : SenderConfig) (s : SenderState P) : Event P → SenderState P
  | Event.accept p =>
    if s.queue.length < cfg.queueSize then
      { s with queue := s.queue ++ [p], accepted := s.accepted ++ [p] }
    else if cfg.queueSize = 0 ∧ s.mode = Mode.accumulating then
      addToBatch cfg { s with accepted := s.accepted ++ [p] } p
    else s
  | Event.recv =>
    match s.mode, s.queue with
    | Mode.accumulating, p :: q => addToBatch cfg { s with queue := q } p
    | _, _ => s
  | Event.tick =>
    match s.mode with
    | Mode.accumulating =>
      if s.batch.length = 0 then s else { s with mode := Mode.flushing }
    | Mode.flushing => s
  | Event.write ok =>
    match s.mode with
    | Mode.accumulating => s
    | Mode.flushing =>
      if ok then
        { s with
          batch := []
          count := 0
          mode := Mode.accumulating
          delivered := s.delivered ++ [s.batch]
          attempts := s.attempts ++ [(s.batch, true)] }
      else { s with attempts := s.attempts ++ [(s.batch, false)] }

/-- The state reached from `s` by a sequence of events. -/
def run {P : Type} (cfg : SenderConfig) (s : SenderState P) (evs : List (Event P)) :
    SenderState P :=
  evs.foldl (step cfg) s

/-- The events of the points `ps` arriving one after the other with nothing in
between: each is sent on the channel and received by the loop. -/
def arrivals {P : Type} (ps : List P) : List (Event P) :=
  ps.flatMap (fun p => [Event.accept p, Event.recv])

/-! ## Invariant of the background loop -/

/-- Relation between two consecutive `conn.Write` calls: a call that follows a
failed one submits the same batch. -/
def RetrySame {P : Type} (x y : List P × Bool) : Prop := x.2 = false → y.1 = x.1

/-- Invariant of the loop: the channel buffer stays within its capacity,
nothing is lost or duplicated, the delivered batches are those of the
successful writes, retries resubmit the failed batch, and a failed last write
means the loop is still writing that batch. -/
structure SenderInv {P : Type} (cfg : SenderConfig) (s : SenderState P) : Prop where
  bounded : s.queue.length ≤ cfg.queueSize
  conserve : s.delivered.flatten ++ s.batch ++ s.queue = s.accepted
  deliveredEq : s.delivered = (s.attempts.filter (fun a => a.2)).map (fun a => a.1)
  retry : List.Chain' RetrySame s.attempts
  pending : ∀ x, s.attempts.getLast? = some x → x.2 = false →
    s.mode = Mode.flushing ∧ x.1 = s.batch

/-! ## Sample collaborators and inputs used by the concrete evaluations -/

/-- A pattern engine that captures nothing. -/
def grokNone : Grok := fun _ _ => .ok []

/-- A pattern engine that captures `host` as the quoted text `"b"`. -/
def grokQuotedHost : Grok := fun _ _ => .ok [("host", "\"b\"")]

/-- A destination that accepts every point. -/
def sendOk : Sender := fun _ => none

/-- A layout parser that accepts only the value `"0"`. -/
def timeParseZero : TimeParse :=
  fun _ v => if v = "0" then .ok 0 else .error "cannot parse"

/-- The template with every field empty. -/
def emptyTranslate : Translate := ⟨"", "", "", "", "", ""⟩

/-- A pattern engine that knows no pattern named `BAD` and captures nothing
with any other. -/
def grokBad : Grok :=
  fun ptrn _ => if ptrn = "BAD" then .error "no pattern found" else .ok []

/-- A rule that requires `kind = x` and adds the tag field `host`. -/
def ruleKindX : Meta := ⟨"", "", "", "host", some [("kind", "x")]⟩

/-- A rule with no precondition that applies the pattern `BAD` to `msg`. -/
def ruleBadPattern : Meta := ⟨"BAD", "msg", "", "", none⟩

/-- A rule with no precondition and no pattern that adds the value field `v`
and the tag field `t`. -/
def rulePlain : Meta := ⟨"", "", "v", "t", none⟩

/-- A pattern engine that captures `q` as the one-character string made of a
double quote. -/
def grokLoneQuote : Grok := fun _ _ => .ok [("q", "\"")]

/-- A rule with no precondition that applies the pattern `P` to `msg` and adds
the value field `v` and the tag field `t`. -/
def rulePattern : Meta := ⟨"P", "msg", "v", "t", none⟩

/-- A rule with no precondition, no pattern and no field. -/
def ruleEmpty : Meta := ⟨"", "", "", "", none⟩

/-- A template with the timestamp layout `L` read from the field `ts`. -/
def stampedTranslate : Translate := ⟨"", "", "L", "ts", "", ""⟩

/-! ## Facts about `unquoted` and the capture merge -/

theorem StrMap.set_same (m : StrMap) (k v : String) : (m.set k v) k = some v := by
  simp [StrMap.set]

theorem StrMap.set_other (m : StrMap) (k v x : String) (h : x ≠ k) :
    (m.set k v) x = m x := by
  simp [StrMap.set, h]

theorem unquoted_eq_none_iff (s : String) : unquoted s = none ↔ s = "\"" := by
  obtain ⟨cs⟩ := s
  cases cs with
  | nil => simp [unquoted]
  | cons c rest =>
    by_cases hc : c = '"'
    · subst hc
      by_cases hr : rest = []
      · subst hr; simp [unquoted]
      · simp only [unquoted, if_true, hr, if_false]
        constructor
        · intro h; cases h
        · intro h
          exact absurd (by simpa using congrArg String.data h) hr
    · simp only [unquoted, hc, if_false]
      constructor
      · intro h; cases h
      · intro h
        have := congrArg String.data h
        simp at this
        exact absurd this.1 hc

theorem unquoted_of_not_quote (s : String) (h : s.data.head? ≠ some '"') :
    unquoted s = some s := by
  obtain ⟨cs⟩ := s
  cases cs with
  | nil => rfl
  | cons c rest =>
    have hc : c ≠ '"' := by simpa using h
    simp [unquoted, hc]

theorem unquoted_wrapped (w : String) : unquoted ("\"" ++ w ++ "\"") = some w := by
  obtain ⟨cs⟩ := w
  have h : ("\"" ++ (String.mk cs) ++ "\"").data = '"' :: (cs ++ ['"']) := by
    simp [String.data_append]
  unfold unquoted
  rw [h]
  simp

theorem mergeCaptures_isSome (data : StrMap) (C : List (String × String))
    (hq : ∀ kv ∈ C, kv.2 ≠ "\"") : ∃ d, mergeCaptures data C = some d := by
  induction C generalizing data with
  | nil => exact ⟨data, rfl⟩
  | cons kv rest ih =>
    have h1 : unquoted kv.2 ≠ none := fun h =>
      hq kv (List.mem_cons_self _ _) ((unquoted_eq_none_iff _).1 h)
    obtain ⟨u, hu⟩ := Option.ne_none_iff_exists'.1 h1
    obtain ⟨d, hd⟩ := ih (data.set kv.1 u) (fun x hx => hq x (List.mem_cons_of_mem _ hx))
    exact ⟨d, by simp [mergeCaptures, hu, hd]⟩

theorem mergeCaptures_other (data d : StrMap) (C : List (String × String))
    (h : mergeCaptures data C = some d) (k : String) (hk : k ∉ C.map Prod.fst) :
    d k = data k := by
  induction C generalizing data with
  | nil => simp [mergeCaptures] at h; rw [← h]
  | cons kv rest ih =>
    simp only [List.map_cons, List.mem_cons, not_or] at hk
    unfold mergeCaptures at h
    cases hu : unquoted kv.2 with
    | none => simp [hu] at h
    | some u =>
      simp only [hu] at h
      rw [ih _ h hk.2, StrMap.set_other _ _ _ _ hk.1]

theorem mergeCaptures_mem (data d : StrMap) (C : List (String × String))
    (h : mergeCaptures data C = some d) (hnd : (C.map Prod.fst).Nodup)
    (kv : String × String) (hkv : kv ∈ C) :
    ∃ u, unquoted kv.2 = some u ∧ d kv.1 = some u := by
  induction C generalizing data with
  | nil => cases hkv
  | cons x rest ih =>
    simp only [List.map_cons, List.nodup_cons] at hnd
    unfold mergeCaptures at h
    cases hu : unquoted x.2 with
    | none => simp [hu] at h
    | some u =>
      simp only [hu] at h
      rcases List.mem_cons.1 hkv with rfl | hmem
      · refine ⟨u, hu, ?_⟩
        rw [mergeCaptures_other _ _ _ h _ hnd.1, StrMap.set_same]
      · exact ih _ h hnd.2 hmem

/-! ## Claims about `unquoted`, `numerical` and the capture merge -/

/-- C10: `unquoted` is not total and does not check the closing character: on
the one-character string made of a double quote the slice `s[1:0]` is out of
range (a panic), and on `"abc`, which opens with a quote but does not end with
one, it drops the final `c` and returns `ab`. -/
theorem unquoted_lone_quote_panics :
    unquoted "\"" = none ∧ unquoted "\"abc" = some "ab" := by
  decide

/-- C7: `numerical "42"` is float-typed, because the float parse is tried first
and accepts it; `"3.14"` is the float 3.14, and `"abc"` and `""` come back as
the same strings. -/
theorem numerical_42_is_float :
    numerical "42" = Value.float (F64.dec false 42 0) ∧
    numerical "3.14" = Value.float (F64.dec false 314 (-2)) ∧
    numerical "abc" = Value.str "abc" ∧ numerical "" = Value.str "" := by
  decide

/-- C9, as stated, fails: with the record `host: a` and the capture `host: "b"`
(quotes included), `refine` stores `b`, not the captured value. -/
theorem refine_strips_quotes_of_capture :
    ∃ res, refine grokQuotedHost (StrMap.ofList [("host", "a")]) emptyTranslate none
        "P" "msg" "" "" = some res ∧
      res.data "host" = some "b" ∧ res.data "host" ≠ some "\"b\"" := by
  refine ⟨_, rfl, ?_, ?_⟩ <;> decide

/-- C9, amended: when the preconditions of a rule hold, its pattern is
non-empty, the engine returns the captures `C` (distinct names) and no captured
value is the one-character string made of a double quote, `refine` returns
without error and the record maps every name of `C` to its captured value when
that value does not begin with a double quote, and to the text between the
quotes when the value is enclosed in a pair of double quotes, whatever the
record held before; every name not in `C` keeps its previous value. -/
theorem refine_overwrites_with_captures (g : Grok) (data : StrMap) (trans : Translate)
    (valid : Option (List (String × String))) (ptrn key good tags : String)
    (C : List (String × String))
    (hv : validOk data valid = true) (hp : 0 < ptrn.length)
    (hg : g ptrn (data.get key) = .ok C)
    (hnd : (C.map Prod.fst).Nodup)
    (hq : ∀ kv ∈ C, kv.2 ≠ "\"") :
    ∃ res, refine g data trans valid ptrn key good tags = some res ∧ res.err = none ∧
      (∀ kv ∈ C, (kv.2.data.head? ≠ some '"' → res.data kv.1 = some kv.2) ∧
                 (∀ w, kv.2 = "\"" ++ w ++ "\"" → res.data kv.1 = some w)) ∧
      (∀ k, k ∉ C.map Prod.fst → res.data k = data k) := by
  obtain ⟨d, hd⟩ := mergeCaptures_isSome data C hq
  have hx : extract g data ptrn key = some (.ok d) := by
    simp [extract, hp, hg, hd]
  refine ⟨_, by simp [refine, hv, hx]; rfl, rfl, ?_, ?_⟩
  · intro kv hkv
    obtain ⟨u, hu, hk⟩ := mergeCaptures_mem data d C hd hnd kv hkv
    constructor
    · intro hh
      rw [unquoted_of_not_quote _ hh] at hu
      simp only [Option.some.injEq] at hu
      simpa [hu] using hk
    · intro w hw
      rw [hw, unquoted_wrapped] at hu
      simp only [Option.some.injEq] at hu
      simpa [hu] using hk
  · intro k hk
    exact mergeCaptures_other data d C hd k hk

/-- Witness for C9: record `host: a, user: u`, captures `host: b` and
`app: "web"`. -/
theorem refine_overwrites_with_captures_witness :
    ∃ res, refine (fun _ _ => .ok [("host", "b"), ("app", "\"web\"")])
        (StrMap.ofList [("host", "a"), ("user", "u")]) emptyTranslate none
        "P" "msg" "" "" = some res ∧ res.err = none ∧
      (∀ kv ∈ [("host", "b"), ("app", "\"web\"")],
        (kv.2.data.head? ≠ some '"' → res.data kv.1 = some kv.2) ∧
        (∀ w, kv.2 = "\"" ++ w ++ "\"" → res.data kv.1 = some w)) ∧
      (∀ k, k ∉ [("host", "b"), ("app", "\"web\"")].map Prod.fst →
        res.data k = (StrMap.ofList [("host", "a"), ("user", "u")]) k) :=
  refine_overwrites_with_captures _ _ emptyTranslate none "P" "msg" "" "" _
    (by decide) (by decide) rfl (by decide) (by decide)

/-! ## Facts about `Fields` and the rule loop -/

theorem splitFields_append_space (a b cur : List Char) :
    splitFields (a ++ ' ' :: b) cur = splitFields a cur ++ splitFields b [] := by
  induction a generalizing cur with
  | nil =>
    have hs : isSpace ' ' = true := by decide
    by_cases hc : cur = [] <;> simp [splitFields, hs, hc]
  | cons c cs ih =>
    by_cases hsp : isSpace c = true
    · by_cases hc : cur = [] <;> simp [splitFields, hsp, hc, ih]
    · simp [splitFields, hsp, ih]

theorem Fields_append_space (a b : String) :
    Fields (a ++ " " ++ b) = Fields a ++ Fields b := by
  have h : (a ++ " " ++ b).data = a.data ++ ' ' :: b.data := by
    simp [String.data_append]
  unfold Fields
  rw [h, splitFields_append_space]

theorem refine_of_invalid (g : Grok) (data : StrMap) (trans : Translate)
    (valid : Option (List (String × String))) (ptrn key good tags : String)
    (h : validOk data valid = false) :
    refine g data trans valid ptrn key good tags =
      some ⟨data, trans, some GoError.ErrNoMatch, []⟩ := by
  simp [refine, h]

theorem evalRules_cons_of_err (g : Grok) (r : Meta) (rest : List Meta) (st : ChainResult)
    (res : RefineResult) (e : GoError)
    (h : refine g st.data st.trans r.Valid r.Pattern r.Key r.Good r.Tags = some res)
    (he : res.err = some e) :
    evalRules g (r :: rest) st =
      evalRules g rest
        ⟨res.data, res.trans, some e, st.grokCalls ++ res.grokCalls, st.evaluated + 1⟩ := by
  simp [evalRules, h, he]

theorem evalRules_cons_of_ok (g : Grok) (r : Meta) (rest : List Meta) (st : ChainResult)
    (res : RefineResult)
    (h : refine g st.data st.trans r.Valid r.Pattern r.Key r.Good r.Tags = some res)
    (he : res.err = none) :
    evalRules g (r :: rest) st =
      some ⟨res.data, res.trans, none, st.grokCalls ++ res.grokCalls, st.evaluated + 1⟩ := by
  simp [evalRules, h, he]

theorem evalRules_skip_invalid (g : Grok) (pre rest : List Meta) (st : ChainResult)
    (h : ∀ r ∈ pre, validOk st.data r.Valid = false) :
    evalRules g (pre ++ rest) st =
      evalRules g rest
        ⟨st.data, st.trans, if pre = [] then st.err else some GoError.ErrNoMatch,
          st.grokCalls, st.evaluated + pre.length⟩ := by
  induction pre generalizing st with
  | nil => simp
  | cons r pre ih =>
    have hr := h r (List.mem_cons_self _ _)
    have hrest : ∀ x ∈ pre, validOk st.data x.Valid = false :=
      fun x hx => h x (List.mem_cons_of_mem _ hx)
    have key := ih ⟨st.data, st.trans, some GoError.ErrNoMatch, st.grokCalls ++ [],
      st.evaluated + 1⟩ hrest
    rw [List.cons_append,
      evalRules_cons_of_err g r (pre ++ rest) st _ _ (refine_of_invalid g _ _ _ _ _ _ _ hr) rfl,
      key]
    by_cases hp : pre = [] <;> simp [hp, Nat.add_assoc, Nat.add_comm 1]

/-! ## Claims about the rule loop -/

/-- C1, as stated, fails: with the single rule `ruleKindX` and a record without
`kind`, `process` returns `ErrNoMatch` and `send` is never called. -/
theorem no_match_is_returned_as_error :
    ∃ r, process grokNone timeParseZero sendOk [ruleKindX] emptyTranslate
        StrMap.empty StrMap.empty 0 = some r ∧
      r.err = some GoError.ErrNoMatch ∧ r.sent.length = 0 :=
  ⟨_, rfl, rfl, rfl⟩

/-- C1, amended: for every record and every non-empty rule list in which no
rule has its `Valid` preconditions satisfied, the rule loop calls `refine` on
every rule without applying a pattern and leaves the record and the working
template equal to the base template, and `process` returns `ErrNoMatch`
without calling `AddPoint`: no point is sent and the tag map is untouched. -/
theorem no_rule_valid_returns_ErrNoMatch (g : Grok) (tp : TimeParse) (send : Sender)
    (filters : List Meta) (trans : Translate) (tags m : StrMap) (now : Instant)
    (hne : filters ≠ []) (hall : ∀ r ∈ filters, validOk m r.Valid = false) :
    evalRules g filters (chainInit m trans) =
      some ⟨m, trans, some GoError.ErrNoMatch, [], filters.length⟩ ∧
    process g tp send filters trans tags m now =
      some ⟨some GoError.ErrNoMatch, [], tags, m, trans⟩ := by
  have h := evalRules_skip_invalid g filters [] (chainInit m trans) hall
  simp only [List.append_nil, hne, if_false, evalRules, chainInit, Nat.zero_add] at h
  exact ⟨h, by simp [process, chainInit, h]⟩

/-- Witness for C1: the single rule `ruleKindX` on the empty record. -/
theorem no_rule_valid_returns_ErrNoMatch_witness :
    evalRules grokNone [ruleKindX] (chainInit StrMap.empty emptyTranslate) =
      some ⟨StrMap.empty, emptyTranslate, some GoError.ErrNoMatch, [], [ruleKindX].length⟩ ∧
    process grokNone timeParseZero sendOk [ruleKindX] emptyTranslate StrMap.empty
      StrMap.empty 0 =
      some ⟨some GoError.ErrNoMatch, [], StrMap.empty, StrMap.empty, emptyTranslate⟩ :=
  no_rule_valid_returns_ErrNoMatch grokNone timeParseZero sendOk [ruleKindX] emptyTranslate
    StrMap.empty StrMap.empty 0 (by decide) (by decide)

/-- C2, as stated, fails: with the rules `ruleBadPattern`, `rulePlain` the
engine rejects the pattern of the first rule, the loop still evaluates the
second rule, which appends its fields to the working template, the evaluation
succeeds and a point is sent. -/
theorem later_rule_runs_after_grok_error :
    ∃ st r, evalRules grokBad [ruleBadPattern, rulePlain]
        (chainInit StrMap.empty emptyTranslate) = some st ∧
      st.err = none ∧ st.evaluated = 2 ∧ st.trans.VFields = " v" ∧
      process grokBad timeParseZero sendOk [ruleBadPattern, rulePlain] emptyTranslate
        StrMap.empty StrMap.empty 0 = some r ∧
      r.err = none ∧ r.sent.length = 1 :=
  ⟨_, _, rfl, rfl, rfl, by decide, rfl, rfl, rfl⟩

/-- C2, amended: if a rule `R` passes its `Valid` preconditions, every earlier
rule having failed its own, and the pattern engine returns an error for the
pattern of `R`, then `refine` returns that error with the record and the
working template unchanged, and the rule loop goes on with the rules after `R`
from that same record and template; when `R` is the last rule, `process`
returns that pattern-engine error and sends no point. -/
theorem grok_error_passes_to_next_rule (g : Grok) (tp : TimeParse) (send : Sender)
    (pre post : List Meta) (R : Meta) (m tags : StrMap) (trans : Translate)
    (now : Instant) (msg : String)
    (hpre : ∀ r ∈ pre, validOk m r.Valid = false)
    (hv : validOk m R.Valid = true) (hp : 0 < R.Pattern.length)
    (hg : g R.Pattern (m.get R.Key) = .error msg) :
    refine g m trans R.Valid R.Pattern R.Key R.Good R.Tags =
      some ⟨m, trans, some (GoError.grok msg), [(R.Pattern, m.get R.Key)]⟩ ∧
    evalRules g (pre ++ R :: post) (chainInit m trans) =
      evalRules g post
        ⟨m, trans, some (GoError.grok msg), [(R.Pattern, m.get R.Key)], pre.length + 1⟩ ∧
    process g tp send (pre ++ [R]) trans tags m now =
      some ⟨some (GoError.grok msg), [], tags, m, trans⟩ := by
  have hr : refine g m trans R.Valid R.Pattern R.Key R.Good R.Tags =
      some ⟨m, trans, some (GoError.grok msg), [(R.Pattern, m.get R.Key)]⟩ := by
    simp [refine, extract, hv, hp, hg]
  have hchain : ∀ rest : List Meta,
      evalRules g (pre ++ R :: rest) (chainInit m trans) =
        evalRules g rest
          ⟨m, trans, some (GoError.grok msg), [(R.Pattern, m.get R.Key)], pre.length + 1⟩ := by
    intro rest
    rw [evalRules_skip_invalid g pre (R :: rest) (chainInit m trans) hpre]
    rw [evalRules_cons_of_err g R rest _ _ (GoError.grok msg) hr rfl]
    simp [chainInit]
  refine ⟨hr, hchain post, ?_⟩
  simp [process, hchain [], evalRules]

/-- Witness for C2: `ruleKindX` fails its precondition, then `ruleBadPattern`
has its pattern rejected, with `rulePlain` after it. -/
theorem grok_error_passes_to_next_rule_witness :
    evalRules grokBad ([ruleKindX] ++ ruleBadPattern :: [rulePlain])
        (chainInit StrMap.empty emptyTranslate) =
      evalRules grokBad [rulePlain]
        ⟨StrMap.empty, emptyTranslate, some (GoError.grok "no pattern found"),
          [("BAD", "")], 2⟩ ∧
    process grokBad timeParseZero sendOk ([ruleKindX] ++ [ruleBadPattern]) emptyTranslate
        StrMap.empty StrMap.empty 0 =
      some ⟨some (GoError.grok "no pattern found"), [], StrMap.empty, StrMap.empty,
        emptyTranslate⟩ :=
  (grok_error_passes_to_next_rule grokBad timeParseZero sendOk [ruleKindX] [rulePlain]
    ruleBadPattern StrMap.empty StrMap.empty emptyTranslate 0 "no pattern found"
    (by decide) (by decide) (by decide) rfl).2

/-- C3: first match wins, except that the evaluation does not always succeed.
With the rules `ruleKindX`, `rulePattern` and the empty record, the first rule
fails its precondition, the second has none and the engine returns the capture
`q` as a lone double quote without error: every condition of first-match-wins
holds, yet the merge of the capture calls `unquoted` on it and panics, so
neither the rule loop nor `process` returns. -/
theorem first_match_panics_on_lone_quote_capture :
    validOk StrMap.empty ruleKindX.Valid = false ∧
    validOk StrMap.empty rulePattern.Valid = true ∧
    grokLoneQuote rulePattern.Pattern (StrMap.get StrMap.empty rulePattern.Key) =
      .ok [("q", "\"")] ∧
    evalRules grokLoneQuote [ruleKindX, rulePattern]
      (chainInit StrMap.empty emptyTranslate) = none ∧
    process grokLoneQuote timeParseZero sendOk [ruleKindX, rulePattern] emptyTranslate
      StrMap.empty StrMap.empty 0 = none :=
  ⟨rfl, rfl, rfl, rfl, rfl⟩

/-- When the extraction block of a rule completes with a record: the engine
returned captures none of which is a lone double quote, or the rule has no
pattern. -/
theorem extract_ok_of_captures (g : Grok) (m : StrMap) (R : Meta)
    (hx : R.Pattern.length = 0 ∨
      ∃ C, g R.Pattern (m.get R.Key) = .ok C ∧ ∀ kv ∈ C, kv.2 ≠ "\"") :
    ∃ data', extract g m R.Pattern R.Key = some (.ok data') := by
  by_cases hp : 0 < R.Pattern.length
  · rcases hx with h0 | ⟨C, hg, hq⟩
    · omega
    · obtain ⟨d, hd⟩ := mergeCaptures_isSome m C hq
      exact ⟨d, by simp [extract, hp, hg, hd]⟩
  · exact ⟨m, by simp [extract, hp]⟩

/-- First match wins whenever the capture merge does not panic.  When every
rule before `R` fails its `Valid` preconditions, `R` passes its own, and `R`
either has no pattern or the engine returns captures none of which is a lone
double quote, then the loop over the rules before `R` leaves the record and the
working template as they were and applies no pattern; the evaluation succeeds,
the only engine call is the one of `R`, `refine` ran on the rules up to `R`
only and the outcome does not mention the later rules; the value fields are
those of the base template followed by the `Good` fields of `R`, and the tag
fields those of the base template followed by the `Tags` fields of `R`. -/
theorem evalRules_first_match (g : Grok) (pre post : List Meta) (R : Meta)
    (m : StrMap) (trans : Translate)
    (hpre : ∀ r ∈ pre, validOk m r.Valid = false)
    (hv : validOk m R.Valid = true)
    (hx : R.Pattern.length = 0 ∨
      ∃ C, g R.Pattern (m.get R.Key) = .ok C ∧ ∀ kv ∈ C, kv.2 ≠ "\"") :
    evalRules g pre (chainInit m trans) =
      some ⟨m, trans, if pre = [] then none else some GoError.ErrNoMatch, [], pre.length⟩ ∧
    (∃ data' t', evalRules g (pre ++ R :: post) (chainInit m trans) =
        some ⟨data', t', none,
          if 0 < R.Pattern.length then [(R.Pattern, m.get R.Key)] else [], pre.length + 1⟩ ∧
      Fields t'.VFields = Fields trans.VFields ++ Fields R.Good ∧
      Fields t'.TFields = Fields trans.TFields ++ Fields R.Tags ∧
      t'.Pattern = trans.Pattern ∧ t'.Key = trans.Key ∧
      t'.TSLayout = trans.TSLayout ∧ t'.TSField = trans.TSField) := by
  obtain ⟨data', hx'⟩ := extract_ok_of_captures g m R hx
  constructor
  · have h := evalRules_skip_invalid g pre [] (chainInit m trans) hpre
    simpa [evalRules, chainInit] using h
  · refine ⟨data', { trans with VFields := trans.VFields ++ " " ++ R.Good,
                                TFields := trans.TFields ++ " " ++ R.Tags }, ?_,
      Fields_append_space _ _, Fields_append_space _ _, rfl, rfl, rfl, rfl⟩
    have hr : refine g m trans R.Valid R.Pattern R.Key R.Good R.Tags =
        some ⟨data', { trans with VFields := trans.VFields ++ " " ++ R.Good,
                                  TFields := trans.TFields ++ " " ++ R.Tags }, none,
          if 0 < R.Pattern.length then [(R.Pattern, m.get R.Key)] else []⟩ := by
      simp [refine, hv, hx']
    rw [evalRules_skip_invalid g pre (R :: post) (chainInit m trans) hpre]
    rw [evalRules_cons_of_ok g R post _ _ hr rfl]
    simp [chainInit]

/-! ## Claims about `AddPoint` -/

/-- C6: the tag map is shared by all records and `AddPoint` assigns into it.
With the rules `ruleKindX` (tag field `host`) and `ruleEmpty`, static tags
`dc: east`, a first record `kind: x, host: h1` and a second record `kind: y`,
the point of the second record carries `host: h1`, a tag that is neither in
the static tags nor in that record, and the caller's map ends with it. -/
theorem tags_leak_between_records :
    ∃ p1 p2 tags',
      parseRecords grokNone timeParseZero sendOk [ruleKindX, ruleEmpty] emptyTranslate
        (StrMap.ofList [("dc", "east")])
        [(StrMap.ofList [("kind", "x"), ("host", "h1")], 0),
         (StrMap.ofList [("kind", "y")], 1)] = some ⟨none, [p1, p2], tags'⟩ ∧
      p2.tags "host" = some "h1" ∧ p2.tags "dc" = some "east" ∧
      (StrMap.ofList [("dc", "east")]) "host" = none ∧
      (StrMap.ofList [("kind", "y")]) "host" = none ∧
      tags' "host" = some "h1" := by
  refine ⟨_, _, _, rfl, ?_, ?_, ?_, ?_, ?_⟩ <;> decide

/-- C8: timestamp resolution in `AddPoint`.  With both `TSLayout` and `TSField`
non-empty, `record[TSField]` is parsed under `TSLayout`; if that fails,
`AddPoint` returns the parse error and `send` is not called; if it succeeds,
`send` is called once, with the parsed instant, and its result is returned.
With either of them empty, no parse is attempted and `send` is called once with
the clock reading. -/
theorem AddPoint_timestamp (tp : TimeParse) (now : Instant) (send : Sender)
    (m tags : StrMap) (t : Translate) :
    (0 < t.TSLayout.length → 0 < t.TSField.length →
      ∀ msg, tp t.TSLayout (m.get t.TSField) = .error msg →
        (AddPoint tp now send m tags t).err = some (GoError.timeParse msg) ∧
        (AddPoint tp now send m tags t).sent = [] ∧
        (AddPoint tp now send m tags t).parsed = [(t.TSLayout, m.get t.TSField)]) ∧
    (0 < t.TSLayout.length → 0 < t.TSField.length →
      ∀ ts, tp t.TSLayout (m.get t.TSField) = .ok ts →
        ∃ p, (AddPoint tp now send m tags t).sent = [p] ∧ p.ts = ts ∧
          (AddPoint tp now send m tags t).err = send p ∧
          (AddPoint tp now send m tags t).parsed = [(t.TSLayout, m.get t.TSField)]) ∧
    (t.TSLayout.length = 0 ∨ t.TSField.length = 0 →
      ∃ p, (AddPoint tp now send m tags t).sent = [p] ∧ p.ts = now ∧
        (AddPoint tp now send m tags t).err = send p ∧
        (AddPoint tp now send m tags t).parsed = []) := by
  refine ⟨?_, ?_, ?_⟩
  · intro h1 h2 msg hmsg
    simp [AddPoint, h1, h2, hmsg]
  · intro h1 h2 ts hts
    exact ⟨_, by simp [AddPoint, h1, h2, hts]; rfl, rfl, by simp [AddPoint, h1, h2, hts],
      by simp [AddPoint, h1, h2, hts]⟩
  · intro h
    have hc : ¬ (0 < t.TSLayout.length ∧ 0 < t.TSField.length) := by omega
    exact ⟨_, by simp only [AddPoint, hc, if_false]; rfl, rfl,
      by simp only [AddPoint, hc, if_false], by simp only [AddPoint, hc, if_false]⟩

/-- Witness for C8: the layout `L` on the field `ts` with an unparsable value,
then with the value `0`, then a template without layout, at clock reading 5. -/
theorem AddPoint_timestamp_witness :
    ((AddPoint timeParseZero 5 sendOk (StrMap.ofList [("ts", "bad")]) StrMap.empty
        stampedTranslate).err = some (GoError.timeParse "cannot parse") ∧
      (AddPoint timeParseZero 5 sendOk (StrMap.ofList [("ts", "bad")]) StrMap.empty
        stampedTranslate).sent = [] ∧
      (AddPoint timeParseZero 5 sendOk (StrMap.ofList [("ts", "bad")]) StrMap.empty
        stampedTranslate).parsed =
          [(stampedTranslate.TSLayout,
            StrMap.get (StrMap.ofList [("ts", "bad")]) stampedTranslate.TSField)]) ∧
    (∃ p, (AddPoint timeParseZero 5 sendOk (StrMap.ofList [("ts", "0")]) StrMap.empty
        stampedTranslate).sent = [p] ∧ p.ts = 0 ∧
      (AddPoint timeParseZero 5 sendOk (StrMap.ofList [("ts", "0")]) StrMap.empty
        stampedTranslate).err = sendOk p ∧
      (AddPoint timeParseZero 5 sendOk (StrMap.ofList [("ts", "0")]) StrMap.empty
        stampedTranslate).parsed =
          [(stampedTranslate.TSLayout,
            StrMap.get (StrMap.ofList [("ts", "0")]) stampedTranslate.TSField)]) ∧
    (∃ p, (AddPoint timeParseZero 5 sendOk StrMap.empty StrMap.empty
        emptyTranslate).sent = [p] ∧ p.ts = 5 ∧
      (AddPoint timeParseZero 5 sendOk StrMap.empty StrMap.empty emptyTranslate).err =
        sendOk p ∧
      (AddPoint timeParseZero 5 sendOk StrMap.empty StrMap.empty emptyTranslate).parsed = []) :=
  ⟨(AddPoint_timestamp timeParseZero 5 sendOk (StrMap.ofList [("ts", "bad")]) StrMap.empty
      stampedTranslate).1 (by decide) (by decide) "cannot parse" rfl,
   (AddPoint_timestamp timeParseZero 5 sendOk (StrMap.ofList [("ts", "0")]) StrMap.empty
      stampedTranslate).2.1 (by decide) (by decide) 0 rfl,
   (AddPoint_timestamp timeParseZero 5 sendOk StrMap.empty StrMap.empty
      emptyTranslate).2.2 (Or.inl (by decide))⟩

/-! ## The sender: invariant of the background loop -/

theorem SenderInv.init (P : Type) (cfg : SenderConfig) :
    SenderInv cfg (SenderState.init P) :=
  ⟨Nat.zero_le _, rfl, rfl, List.chain'_nil, by intro x h; cases h⟩

theorem SenderInv.addToBatch {P : Type} (cfg : SenderConfig) (s : SenderState P) (p : P)
    (hm : s.mode = Mode.accumulating)
    (hb : s.queue.length ≤ cfg.queueSize)
    (hc : s.delivered.flatten ++ (s.batch ++ [p]) ++ s.queue = s.accepted)
    (hd : s.delivered = (s.attempts.filter (fun a => a.2)).map (fun a => a.1))
    (hr : List.Chain' RetrySame s.attempts)
    (hp : ∀ x, s.attempts.getLast? = some x → x.2 = false →
      s.mode = Mode.flushing ∧ x.1 = s.batch) :
    SenderInv cfg (Logflux.addToBatch cfg s p) := by
  refine ⟨hb, hc, hd, hr, ?_⟩
  intro x hx hf
  have := (hp x hx hf).1
  rw [hm] at this
  cases this

theorem SenderInv.step {P : Type} (cfg : SenderConfig) (s : SenderState P) (e : Event P)
    (h : SenderInv cfg s) : SenderInv cfg (Logflux.step cfg s e) := by
  obtain ⟨hb, hc, hd, hr, hp⟩ := h
  cases e with
  | accept p =>
    simp only [Logflux.step]
    split_ifs with h1 h2
    · exact ⟨by simpa using h1, by simp [← hc], hd, hr, hp⟩
    · have hq : s.queue = [] := by
        have : s.queue.length = 0 := by omega
        exact List.length_eq_zero.1 this
      exact SenderInv.addToBatch cfg _ p h2.2 hb (by simp [← hc, hq]) hd hr hp
    · exact ⟨hb, hc, hd, hr, hp⟩
  | recv =>
    simp only [Logflux.step]
    split
    · next p q hm hq =>
      rw [hq] at hb hc
      exact SenderInv.addToBatch cfg _ _ hm
        (Nat.le_of_succ_le (by simpa using hb)) (by simpa using hc) hd hr hp
    · exact ⟨hb, hc, hd, hr, hp⟩
  | tick =>
    simp only [Logflux.step]
    split
    · next hm =>
      split_ifs with hbt
      · exact ⟨hb, hc, hd, hr, hp⟩
      · refine ⟨hb, hc, hd, hr, ?_⟩
        intro x hx hf
        have := (hp x hx hf).1
        rw [hm] at this
        cases this
    · exact ⟨hb, hc, hd, hr, hp⟩
  | write ok =>
    simp only [Logflux.step]
    split
    · exact ⟨hb, hc, hd, hr, hp⟩
    · next hm =>
      have hchain : ∀ o : Bool, List.Chain' RetrySame (s.attempts ++ [(s.batch, o)]) := by
        intro o
        refine List.Chain'.append hr (List.chain'_singleton _) ?_
        intro x hx y hy hf
        simp only [List.head?_cons, Option.mem_def, Option.some.injEq] at hy
        subst hy
        exact ((hp x hx hf).2).symm
      split_ifs with hok
      · refine ⟨hb, ?_, ?_, hchain true, ?_⟩
        · simp [← hc]
        · simp [List.filter_append, hd]
        · intro x hx hf
          simp only [List.getLast?_concat, Option.some.injEq] at hx
          subst hx
          cases hf
      · refine ⟨hb, hc, ?_, hchain false, ?_⟩
        · simp [List.filter_append, hd]
        · intro x hx _
          simp only [List.getLast?_concat, Option.some.injEq] at hx
          subst hx
          exact ⟨hm, rfl⟩

theorem SenderInv.run {P : Type} (cfg : SenderConfig) (evs : List (Event P))
    (s : SenderState P) (h : SenderInv cfg s) : SenderInv cfg (Logflux.run cfg s evs) := by
  induction evs generalizing s with
  | nil => exact h
  | cons e evs ih => exact ih _ (SenderInv.step cfg s e h)

/-- C4: retry persistence and no loss or duplication.  In every state reached
by the background loop from its initial state, (a) in the log of `conn.Write`
calls every call that follows a failed call submits the very same batch, and
the batches delivered are exactly those of the successful calls, in order, and
(b) the successfully written batches, then the current batch, then the queued
points are the accepted points in arrival order. -/
theorem sender_retries_same_batch_and_keeps_points {P : Type} (cfg : SenderConfig)
    (evs : List (Event P)) :
    List.Chain' (fun x y : List P × Bool => x.2 = false → y.1 = x.1)
      (run cfg (SenderState.init P) evs).attempts ∧
    (run cfg (SenderState.init P) evs).delivered =
      ((run cfg (SenderState.init P) evs).attempts.filter (fun a => a.2)).map
        (fun a => a.1) ∧
    (run cfg (SenderState.init P) evs).delivered.flatten ++
        (run cfg (SenderState.init P) evs).batch ++
        (run cfg (SenderState.init P) evs).queue =
      (run cfg (SenderState.init P) evs).accepted := by
  have h := SenderInv.run cfg evs (SenderState.init P) (SenderInv.init P cfg)
  exact ⟨h.retry, h.deliveredEq, h.conserve⟩

/-! ## The sender: the size trigger -/

theorem run_append {P : Type} (cfg : SenderConfig) (s : SenderState P)
    (a b : List (Event P)) : run cfg s (a ++ b) = run cfg (run cfg s a) b := by
  simp [run, List.foldl_append]

theorem arrivals_append {P : Type} (a b : List P) :
    arrivals (a ++ b) = arrivals a ++ arrivals b := by
  simp [arrivals, List.flatMap_append]

/-- One point sent and received while the loop waits at the `select` with an
empty channel ends in the body of the receive branch. -/
theorem run_arrival {P : Type} (cfg : SenderConfig) (s : SenderState P) (p : P)
    (hm : s.mode = Mode.accumulating) (hq : s.queue = []) :
    run cfg s (arrivals [p]) =
      addToBatch cfg { s with accepted := s.accepted ++ [p] } p := by
  obtain ⟨queue, batch, count, mode, delivered, attempts, accepted⟩ := s
  simp only at hm hq
  subst hm hq
  by_cases h0 : 0 < cfg.queueSize
  · simp [run, arrivals, step, h0]
  · have hz : cfg.queueSize = 0 := by omega
    simp only [run, arrivals, List.flatMap_cons, List.flatMap_nil, List.append_nil,
      List.foldl_cons, List.foldl_nil, step, List.length_nil, hz, Nat.lt_irrefl, if_false,
      true_and, if_true]
    simp only [addToBatch]
    split <;> simp_all

/-- While the counter stays below the threshold, arrivals only grow the batch. -/
theorem run_arrivals_below {P : Type} (cfg : SenderConfig) (ps : List P)
    (s : SenderState P) (hm : s.mode = Mode.accumulating) (hq : s.queue = [])
    (hlt : s.count + ps.length < cfg.batchSize) :
    run cfg s (arrivals ps) =
      { s with batch := s.batch ++ ps, count := s.count + ps.length,
               accepted := s.accepted ++ ps } := by
  induction ps generalizing s with
  | nil =>
    obtain ⟨queue, batch, count, mode, delivered, attempts, accepted⟩ := s
    simp [run, arrivals]
  | cons p ps ih =>
    have hsplit : arrivals (p :: ps) = arrivals [p] ++ arrivals ps := by
      rw [← arrivals_append]; rfl
    simp only [List.length_cons, Nat.cast_add, Nat.cast_one] at hlt
    have h1 : s.count + 1 < cfg.batchSize := by omega
    rw [hsplit, run_append, run_arrival cfg s p hm hq, ih]
    · obtain ⟨queue, batch, count, mode, delivered, attempts, accepted⟩ := s
      simp only at h1 hlt hm
      simp only [addToBatch, List.append_assoc, List.singleton_append, List.length_cons,
        Nat.cast_add, Nat.cast_one, h1, if_true, hm]
      congr 1
      omega
    · simp only [addToBatch]
      simp [h1]
    · simpa [addToBatch] using hq
    · simp only [addToBatch]
      omega

/-- The state after exactly `batchSize` arrivals from the initial state. -/
theorem run_arrivals_full {P : Type} (cfg : SenderConfig) (ps : List P)
    (hb : 1 ≤ cfg.batchSize) (hlen : (ps.length : Int) = cfg.batchSize) :
    run cfg (SenderState.init P) (arrivals ps) =
      ⟨[], ps, cfg.batchSize, Mode.flushing, [], [], ps⟩ := by
  have hne : ps ≠ [] := by
    intro h
    rw [h] at hlen
    simp at hlen
    omega
  have hsplit := List.dropLast_append_getLast hne
  have hdl : ((ps.dropLast).length : Int) = cfg.batchSize - 1 := by
    have hpos : 0 < ps.length := List.length_pos.2 hne
    rw [List.length_dropLast]
    omega
  have hlt : (SenderState.init P).count + (ps.dropLast).length < cfg.batchSize := by
    simp only [SenderState.init]
    omega
  conv_lhs => rw [← hsplit]
  rw [arrivals_append, run_append, run_arrivals_below cfg ps.dropLast _ rfl rfl hlt,
    run_arrival cfg _ _ rfl rfl]
  simp only [addToBatch, SenderState.init, List.nil_append, hsplit, hdl]
  have h1 : ¬ (0 + (cfg.batchSize - 1) + 1 < cfg.batchSize) := by omega
  simp only [h1, if_false]
  congr 1
  omega

/-- C5: the size trigger.  For `batchSize ≥ 1` and `batchSize` points arriving
from the initial state with no timer tick: after each of the first
`batchSize - 1` arrivals the loop is back at the `select` and no write has been
attempted; the last arrival takes the loop to the write of a batch that holds
exactly those points in arrival order; after that one write succeeds, the log
of writes holds this single batch, the batch is empty and the counter is 0. -/
theorem size_trigger_flushes_once {P : Type} (cfg : SenderConfig) (ps : List P)
    (hb : 1 ≤ cfg.batchSize) (hlen : (ps.length : Int) = cfg.batchSize) :
    (∀ k, k < ps.length →
      (run cfg (SenderState.init P) (arrivals (ps.take k))).mode = Mode.accumulating ∧
      (run cfg (SenderState.init P) (arrivals (ps.take k))).attempts = [] ∧
      (run cfg (SenderState.init P) (arrivals (ps.take k))).batch = ps.take k ∧
      (run cfg (SenderState.init P) (arrivals (ps.take k))).count = k) ∧
    ((run cfg (SenderState.init P) (arrivals ps)).mode = Mode.flushing ∧
      (run cfg (SenderState.init P) (arrivals ps)).batch = ps ∧
      (run cfg (SenderState.init P) (arrivals ps)).attempts = []) ∧
    ((run cfg (SenderState.init P) (arrivals ps ++ [Event.write true])).attempts =
        [(ps, true)] ∧
      (run cfg (SenderState.init P) (arrivals ps ++ [Event.write true])).delivered = [ps] ∧
      (run cfg (SenderState.init P) (arrivals ps ++ [Event.write true])).batch = [] ∧
      (run cfg (SenderState.init P) (arrivals ps ++ [Event.write true])).count = 0 ∧
      (run cfg (SenderState.init P) (arrivals ps ++ [Event.write true])).mode =
        Mode.accumulating) := by
  refine ⟨?_, ?_, ?_⟩
  · intro k hk
    have hl : (ps.take k).length = k := by
      rw [List.length_take]; omega
    have hlt : (SenderState.init P).count + ((ps.take k).length : Int) < cfg.batchSize := by
      simp only [SenderState.init, hl]
      omega
    rw [run_arrivals_below cfg (ps.take k) _ rfl rfl hlt]
    simp [SenderState.init, hl]
  · rw [run_arrivals_full cfg ps hb hlen]
    exact ⟨rfl, rfl, rfl⟩
  · rw [run_append, run_arrivals_full cfg ps hb hlen]
    simp [run, step]

/-- Witness for C5: `batchSize = 3`, a channel of capacity 2 and the points
10, 20, 30. -/
theorem size_trigger_flushes_once_witness :
    (∀ k, k < [10, 20, 30].length →
      (run ⟨3, 2⟩ (SenderState.init Nat) (arrivals ([10, 20, 30].take k))).mode =
        Mode.accumulating ∧
      (run ⟨3, 2⟩ (SenderState.init Nat) (arrivals ([10, 20, 30].take k))).attempts = [] ∧
      (run ⟨3, 2⟩ (SenderState.init Nat) (arrivals ([10, 20, 30].take k))).batch =
        [10, 20, 30].take k ∧
      (run ⟨3, 2⟩ (SenderState.init Nat) (arrivals ([10, 20, 30].take k))).count = k) ∧
    ((run ⟨3, 2⟩ (SenderState.init Nat) (arrivals [10, 20, 30])).mode = Mode.flushing ∧
      (run ⟨3, 2⟩ (SenderState.init Nat) (arrivals [10, 20, 30])).batch = [10, 20, 30] ∧
      (run ⟨3, 2⟩ (SenderState.init Nat) (arrivals [10, 20, 30])).attempts = []) ∧
    ((run ⟨3, 2⟩ (SenderState.init Nat)
        (arrivals [10, 20, 30] ++ [Event.write true])).attempts = [([10, 20, 30], true)] ∧
      (run ⟨3, 2⟩ (SenderState.init Nat)
        (arrivals [10, 20, 30] ++ [Event.write true])).delivered = [[10, 20, 30]] ∧
      (run ⟨3, 2⟩ (SenderState.init Nat)
        (arrivals [10, 20, 30] ++ [Event.write true])).batch = [] ∧
      (run ⟨3, 2⟩ (SenderState.init Nat)
        (arrivals [10, 20, 30] ++ [Event.write true])).count = 0 ∧
      (run ⟨3, 2⟩ (SenderState.init Nat)
        (arrivals [10, 20, 30] ++ [Event.write true])).mode = Mode.accumulating) :=
  size_trigger_flushes_once ⟨3, 2⟩ [10, 20, 30] (by decide) (by decide)

end Logflux
